import Mathlib

set_option maxRecDepth 8192

/-!
Verification of the BigQuery analysis MCP server (`src/index.ts`).

The development has two layers:

* a shallow embedding of the source: the DML classifier
  `containsDMLStatements` (comment-stripping normalization followed by an
  ordered catalog of word-boundary-anchored signatures, exactly mirroring the
  regexes of the source) and the two tool handlers `dryRunQueryHandler` and
  `runQueryWithValidationHandler`.  The external BigQuery facilities (dry-run
  job creation and query execution) are modelled as explicit `Except`-valued
  oracles, and each handler additionally returns the list of external calls it
  performed, so that claims about call counts are expressible.  Errors thrown
  by the facilities are modelled by their message strings.  The
  human-readable size strings of the source (produced with floating point
  `toFixed`) carry no admission-control content and are not modelled; the
  byte counts and the threshold comparison, which the source performs with
  `BigInt`, are modelled with exact `Nat` arithmetic.

* a specification layer: declarative predicates for "whole-word occurrence of
  a signature" (`specOccurs` and friends) and a comment lexer
  (`specCommentMask`) formalizing the claims' notion of text lying inside
  single-line or block comments.  These are written from the wording of the
  claims, independently of the scan-based matcher of the source, and the two
  are related by the `testPattern_iff` correspondence theorem.
-/

/-- JS regex `\w` word-character class `[A-Za-z0-9_]`; used by the
word-boundary assertion `\b` of the source's signatures. -/
def isWordChar (c : Char) : Bool :=
  ('A' ≤ c && c ≤ 'Z') || ('a' ≤ c && c ≤ 'z') || ('0' ≤ c && c ≤ '9') || c = '_'

/-- JS regex `\s` whitespace class (also the character set removed by
`String.prototype.trim`). -/
def isJsSpace (c : Char) : Bool :=
  c = ' ' || c = '\t' || c = '\n' || c = '\x0b' || c = '\x0c' || c = '\r' ||
  c = '\u00a0' || c = '\u1680' || c = '\u2000' || c = '\u2001' || c = '\u2002' ||
  c = '\u2003' || c = '\u2004' || c = '\u2005' || c = '\u2006' || c = '\u2007' ||
  c = '\u2008' || c = '\u2009' || c = '\u200a' || c = '\u2028' || c = '\u2029' ||
  c = '\u202f' || c = '\u205f' || c = '\u3000' || c = '\ufeff'

/-- JS line terminators: the characters `$` matches before under the `m` flag
and `.` does not match. -/
def isLineTerm (c : Char) : Bool :=
  c = '\n' || c = '\r' || c = '\u2028' || c = '\u2029'

/-- The single-line comment removal regex of the source (two dashes up to
line end, global + multiline): on each line, remove everything from the first
`--` to the end of the line (the line terminator itself is kept).  The
Boolean argument is true while inside a removed span. -/
def stripLineAux : Bool → List Char → List Char
  | _, [] => []
  | true, c :: rest =>
      if isLineTerm c then c :: stripLineAux false rest
      else stripLineAux true rest
  | false, '-' :: '-' :: rest => stripLineAux true rest
  | false, c :: rest => c :: stripLineAux false rest

/-- Single-line comment removal step of the source's normalization. -/
def removeLineComments (l : List Char) : List Char :=
  stripLineAux false l

/-- Scan for the next `*/`; `some rest` is the text after it, `none` when the
remaining text has no `*/` (in which case the non-greedy block-comment regex
of the source cannot match anywhere in it). -/
def dropToStarSlash : List Char → Option (List Char)
  | '*' :: '/' :: rest => some rest
  | _ :: rest => dropToStarSlash rest
  | [] => none

/-- `replace(/\/\*[\s\S]*?\*\//g, '')` of the source: repeatedly remove from
each `/*` to the nearest following `*/`; a `/*` without a closing `*/` is left
in place.  Fueled by the input length to keep the recursion structural; the
fuel is ample because every removal consumes at least four characters. -/
def stripBlockF : Nat → List Char → List Char
  | _, [] => []
  | 0, l => l
  | fuel + 1, '/' :: '*' :: rest =>
      match dropToStarSlash rest with
      | some rest2 => stripBlockF fuel rest2
      | none => '/' :: '*' :: rest
  | fuel + 1, c :: rest => c :: stripBlockF fuel rest

/-- Block comment removal step of the source's normalization. -/
def removeBlockComments (l : List Char) : List Char :=
  stripBlockF l.length l

/-- `String.prototype.trim`. -/
def trimJs (l : List Char) : List Char :=
  ((l.dropWhile isJsSpace).reverse.dropWhile isJsSpace).reverse

/-- The normalization pipeline of `containsDMLStatements`: strip single-line
comments, then block comments, trim, and uppercase.  `Char.toUpper` is
ASCII-only, which agrees with JS `toUpperCase` on every character that can
interact with the ASCII-letter signatures of the catalog. -/
def normalizeQuery (q : List Char) : List Char :=
  (trimJs (removeBlockComments (removeLineComments q))).map Char.toUpper

/-- Result object of `containsDMLStatements`: `{ isDML: boolean;
message?: string }`. -/
structure DMLCheck where
  isDML : Bool
  message : Option String
  deriving DecidableEq

/-- One catalog entry of `dmlPatterns`: the source's regexes all have the
shape `\bW1\s+W2...\b`, represented here by the list of keywords `words`,
plus the human-readable `name`. -/
structure DmlPattern where
  words : List (List Char)
  name : String
  deriving DecidableEq

/-- Match the keyword `w` at the head of `l`, returning the rest. -/
def consumeWord : List Char → List Char → Option (List Char)
  | [], l => some l
  | _ :: _, [] => none
  | a :: as, c :: cs => if a = c then consumeWord as cs else none

/-- Greedy `\s*` consumption. -/
def skipSpaces (l : List Char) : List Char :=
  l.dropWhile isJsSpace

/-- The trailing `\b` of a signature: the next character, if any, must not be
a word character. -/
def wordBoundaryAfter : List Char → Bool
  | [] => true
  | c :: _ => !isWordChar c

/-- Match `W1\s+W2...\b` at the start of the text: each keyword in turn,
separated by at least one whitespace character.  Greedy whitespace
consumption is faithful to the regex because keywords never start with a
whitespace character. -/
def matchWords : List (List Char) → List Char → Bool
  | [], l => wordBoundaryAfter l
  | [w], l =>
      match consumeWord w l with
      | none => false
      | some l2 => wordBoundaryAfter l2
  | w :: w' :: ws, l =>
      match consumeWord w l with
      | none => false
      | some l2 =>
          match l2 with
          | [] => false
          | c :: l3 => isJsSpace c && matchWords (w' :: ws) (skipSpaces l3)

/-- `pattern.test(normalizedQuery)`: try the match at every position; the
leading `\b` requires the previous character (tracked by the Boolean
argument) not to be a word character. -/
def scanPattern (ws : List (List Char)) : Bool → List Char → Bool
  | _, [] => false
  | prev, c :: rest =>
      (!prev && matchWords ws (c :: rest)) || scanPattern ws (isWordChar c) rest

/-- Whether a signature matches anywhere in the text. -/
def testPattern (ws : List (List Char)) (s : List Char) : Bool :=
  scanPattern ws false s

/-- The ordered signature catalog `dmlPatterns` of the source. -/
def dmlPatterns : List DmlPattern :=
  [⟨[("CREATE".toList), ("TABLE".toList)], "CREATE TABLE"⟩,
   ⟨[("CREATE".toList), ("OR".toList), ("REPLACE".toList), ("TABLE".toList)],
     "CREATE OR REPLACE TABLE"⟩,
   ⟨[("DROP".toList), ("TABLE".toList)], "DROP TABLE"⟩,
   ⟨[("ALTER".toList), ("TABLE".toList)], "ALTER TABLE"⟩,
   ⟨[("INSERT".toList), ("INTO".toList)], "INSERT INTO"⟩,
   ⟨[("UPDATE".toList)], "UPDATE"⟩,
   ⟨[("DELETE".toList), ("FROM".toList)], "DELETE FROM"⟩,
   ⟨[("MERGE".toList), ("INTO".toList)], "MERGE INTO"⟩,
   ⟨[("TRUNCATE".toList), ("TABLE".toList)], "TRUNCATE TABLE"⟩,
   ⟨[("CREATE".toList), ("VIEW".toList)], "CREATE VIEW"⟩,
   ⟨[("CREATE".toList), ("OR".toList), ("REPLACE".toList), ("VIEW".toList)],
     "CREATE OR REPLACE VIEW"⟩,
   ⟨[("DROP".toList), ("VIEW".toList)], "DROP VIEW"⟩,
   ⟨[("CREATE".toList), ("FUNCTION".toList)], "CREATE FUNCTION"⟩,
   ⟨[("DROP".toList), ("FUNCTION".toList)], "DROP FUNCTION"⟩,
   ⟨[("CREATE".toList), ("PROCEDURE".toList)], "CREATE PROCEDURE"⟩,
   ⟨[("DROP".toList), ("PROCEDURE".toList)], "DROP PROCEDURE"⟩,
   ⟨[("GRANT".toList)], "GRANT"⟩,
   ⟨[("REVOKE".toList)], "REVOKE"⟩,
   ⟨[("BEGIN".toList), ("TRANSACTION".toList)], "BEGIN TRANSACTION"⟩,
   ⟨[("COMMIT".toList)], "COMMIT"⟩,
   ⟨[("ROLLBACK".toList)], "ROLLBACK"⟩]

/-- The rejection message template of the source. -/
def dmlMessage (name : String) : String :=
  "DML statement detected: " ++ name ++ ". Only SELECT queries are allowed."

/-- `containsDMLStatements` of the source: normalize, then return the first
matching signature of the catalog (or no match). -/
def containsDMLStatements (q : List Char) : DMLCheck :=
  match dmlPatterns.find? (fun p => testPattern p.words (normalizeQuery q)) with
  | some p => ⟨true, some (dmlMessage p.name)⟩
  | none => ⟨false, none⟩

/-- `SIZE_LIMIT_BYTES = 1_099_511_627_776` (1 TB) of the source. -/
def SIZE_LIMIT_BYTES : Nat := 1099511627776

/-- The `McpError` code thrown by the handlers (`ErrorCode.InvalidParams`). -/
inductive McpErrorCode where
  | invalidParams
  deriving DecidableEq

/-- The JSON documents emitted by the two tools.  `bytesProcessed`, carried
by the BigQuery API as a decimal string and compared via `BigInt` in the
source, is modelled as an exact `Nat`.  The purely cosmetic
`formattedSize`/`message` strings (floating-point `toFixed` renderings) are
not modelled; every admission-control field is. -/
inductive Payload (Row : Type) where
  /-- `{success: true, bytesProcessed, isBelowLimit, ...}` of `dry_run_query`. -/
  | dryRunSuccess (bytesProcessed : Nat) (isBelowLimit : Bool)
  /-- `{success: false, error}`: DML rejection or a caught facility error. -/
  | failure (error : String)
  /-- `{success: false, bytesProcessed, ...}` oversized rejection of
  `run_query_with_validation`. -/
  | oversized (bytesProcessed : Nat)
  /-- `{success: true, bytesProcessed, rowCount, results, ...}`. -/
  | executed (bytesProcessed : Nat) (rowCount : Nat) (results : List Row)
  deriving DecidableEq

/-- What a handler invocation produces: a thrown `McpError` (a
transport-level fault) or a returned JSON payload. -/
inductive HandlerOutcome (Row : Type) where
  | thrown (code : McpErrorCode) (msg : String)
  | reply (payload : Payload Row)
  deriving DecidableEq

/-- One call to an external BigQuery facility. -/
inductive ExtCall where
  /-- `bigquery.createQueryJob({..., dryRun: true})`. -/
  | dryRun
  /-- `bigquery.query({..., maxResults})`. -/
  | execute (maxResults : Nat)
  deriving DecidableEq

/-- Behaviour of the external BigQuery client for one request: what the
dry-run facility and the execution facility would produce if called
(`Except.error` models a thrown `Error`, identified by its message). -/
structure BigQueryEnv (Row : Type) where
  dryRun : Except String Nat
  runQuery : Except String (List Row)

/-- The `dry_run_query` tool handler.  Returns the outcome together with the
list of external calls made, in order. -/
def dryRunQueryHandler {Row : Type} (dryRun : Except String Nat)
    (query : String) : HandlerOutcome Row × List ExtCall :=
  if query = "" then
    (.thrown .invalidParams "Query is required", [])
  else
    match dryRun with
    | .ok totalBytesProcessed =>
        (.reply (.dryRunSuccess totalBytesProcessed
          (decide (totalBytesProcessed < SIZE_LIMIT_BYTES))), [.dryRun])
    | .error e => (.reply (.failure e), [.dryRun])

/-- The `run_query_with_validation` tool handler: empty-query guard, local
DML check (no external call on rejection), dry-run size gate, then real
execution.  The single try/catch of the source that converts any facility
error into `{success:false, error}` appears here as the two `.error`
branches. -/
def runQueryWithValidationHandler {Row : Type} (env : BigQueryEnv Row)
    (query : String) (maxResults : Nat := 100) :
    HandlerOutcome Row × List ExtCall :=
  if query = "" then
    (.thrown .invalidParams "Query is required", [])
  else
    let dmlCheck := containsDMLStatements query.toList
    if dmlCheck.isDML then
      (.reply (.failure (dmlCheck.message.getD (""))), [])
    else
      match env.dryRun with
      | .error e => (.reply (.failure e), [.dryRun])
      | .ok totalBytesProcessed =>
          let isBelowLimit := decide (totalBytesProcessed < SIZE_LIMIT_BYTES)
          if !isBelowLimit then
            (.reply (.oversized totalBytesProcessed), [.dryRun])
          else
            match env.runQuery with
            | .error e => (.reply (.failure e), [.dryRun, .execute maxResults])
            | .ok rows =>
                (.reply (.executed totalBytesProcessed rows.length rows),
                 [.dryRun, .execute maxResults])

/-- Whether an external call is a call to the execution facility. -/
def isExecuteCall : ExtCall → Bool
  | .execute _ => true
  | .dryRun => false

/-- Whether a call trace contains a call to the execution facility. -/
def calledExecute (calls : List ExtCall) : Bool :=
  calls.any isExecuteCall

/-!  Specification layer: declarative whole-word occurrences. -/

/-- All ways to split a list into a prefix and a suffix, in order. -/
def splits {α : Type} : List α → List (List α × List α)
  | [] => [([], [])]
  | c :: rest => ([], c :: rest) :: (splits rest).map (fun p => (c :: p.1, p.2))

/-- Fueled worker for `specIsSeq` (the fuel only keeps the recursion
structural; one unit is spent per keyword). -/
def specIsSeqF : Nat → List (List Char) → List Char → Bool
  | _, [], _ => false
  | _, [w], seg => decide (seg = w)
  | 0, _ :: _ :: _, _ => false
  | fuel + 1, w :: w' :: ws, seg =>
      (splits seg).any fun ab =>
        decide (ab.1 = w) &&
          (splits ab.2).any fun sr =>
            (!sr.1.isEmpty && sr.1.all isJsSpace) &&
              specIsSeqF fuel (w' :: ws) sr.2

/-- `specIsSeq ws seg`: the text `seg` consists exactly of the keywords `ws`
in order, consecutive keywords separated by one or more whitespace
characters — the declarative reading of the body `W1\s+W2...` of a
signature. -/
def specIsSeq (ws : List (List Char)) (seg : List Char) : Bool :=
  specIsSeqF ws.length ws seg

/-- The text before an occurrence must not end in a word character (the
leading `\b`). -/
def specNoWordEnd (pre : List Char) : Bool :=
  match pre.getLast? with
  | none => true
  | some c => !isWordChar c

/-- The text after an occurrence must not start with a word character (the
trailing `\b`). -/
def specNoWordHead (post : List Char) : Bool :=
  match post.head? with
  | none => true
  | some c => !isWordChar c

/-- `specOccurs ws s`: somewhere in `s` there is a whole-word occurrence of
the signature `ws`. -/
def specOccurs (ws : List (List Char)) (s : List Char) : Bool :=
  (splits s).any fun pr =>
    specNoWordEnd pr.1 &&
      (splits pr.2).any fun sr =>
        specIsSeq ws sr.1 && specNoWordHead sr.2

/-- Lexer states for the claims' notion of SQL comments. -/
inductive LexState where
  | code
  | lineComment
  | blockComment

/-- One left-to-right pass marking each character as inside (`true`) or
outside (`false`) a comment: `--` starts a single-line comment ending before
the next line terminator; `/*` starts a (non-nested) block comment ending at
the next `*/`; each marker is inert inside the other kind of comment. -/
def specCommentMaskAux : LexState → List Char → List Bool
  | _, [] => []
  | .code, '-' :: '-' :: rest => true :: true :: specCommentMaskAux .lineComment rest
  | .code, '/' :: '*' :: rest => true :: true :: specCommentMaskAux .blockComment rest
  | .code, _ :: rest => false :: specCommentMaskAux .code rest
  | .lineComment, c :: rest =>
      if isLineTerm c then false :: specCommentMaskAux .code rest
      else true :: specCommentMaskAux .lineComment rest
  | .blockComment, '*' :: '/' :: rest => true :: true :: specCommentMaskAux .code rest
  | .blockComment, _ :: rest => true :: specCommentMaskAux .blockComment rest

/-- Comment mask of a query. -/
def specCommentMask (q : List Char) : List Bool :=
  specCommentMaskAux .code q

/-- Each character of the query uppercased (so that matching against the
uppercase keywords of the catalog is case-insensitive) and tagged with its
comment mask bit. -/
def specMaskedUpper (q : List Char) : List (Char × Bool) :=
  (q.map Char.toUpper).zip (specCommentMask q)

/-- A case-insensitive whole-word occurrence of the signature `ws` in the raw
query `q` lying entirely outside comments. -/
def specOccursOutsideComments (ws : List (List Char)) (q : List Char) : Bool :=
  (splits (specMaskedUpper q)).any fun pr =>
    specNoWordEnd (pr.1.map Prod.fst) &&
      (splits pr.2).any fun sr =>
        specIsSeq ws (sr.1.map Prod.fst) &&
          sr.1.all (fun cb => !cb.2) &&
          specNoWordHead (sr.2.map Prod.fst)

/-- A case-insensitive whole-word occurrence of the signature `ws` in the raw
query `q` at least one character of which lies outside comments.  This is
`false` for every signature exactly when all occurrences lie wholly inside
comments. -/
def specOccursPartlyOutsideComments (ws : List (List Char)) (q : List Char) : Bool :=
  (splits (specMaskedUpper q)).any fun pr =>
    specNoWordEnd (pr.1.map Prod.fst) &&
      (splits pr.2).any fun sr =>
        specIsSeq ws (sr.1.map Prod.fst) &&
          sr.1.any (fun cb => !cb.2) &&
          specNoWordHead (sr.2.map Prod.fst)

/-- Well-formedness of a signature, true of every catalog entry: at least one
keyword, every keyword nonempty and made of word characters only (hence free
of whitespace). -/
def wordsOK (ws : List (List Char)) : Bool :=
  !ws.isEmpty && ws.all fun w => !w.isEmpty && w.all fun c => isWordChar c && !isJsSpace c

/-- Scan state after reading `pre` starting from state `prev`: whether the
character just before the current position is a word character. -/
def endsWord : Bool → List Char → Bool
  | prev, [] => prev
  | _, c :: rest => endsWord (isWordChar c) rest

/-!  Correspondence between the scan-based matcher and the declarative
occurrence predicate. -/

theorem splits_any {α : Type} (l : List α) :
    ∀ f : List α × List α → Bool,
      ((splits l).any f = true ↔ ∃ a b, l = a ++ b ∧ f (a, b) = true) := by
  induction l with
  | nil =>
      intro f
      constructor
      · intro h
        refine ⟨[], [], rfl, ?_⟩
        simpa [splits] using h
      · rintro ⟨a, b, hab, h⟩
        have ha : a = [] := by
          cases a with
          | nil => rfl
          | cons x xs => simp at hab
        subst ha
        have hb : b = [] := by simpa using hab.symm
        subst hb
        simpa [splits] using h
  | cons c rest ih =>
      intro f
      constructor
      · intro h
        simp only [splits, List.any_cons, List.any_map, Bool.or_eq_true] at h
        rcases h with h | h
        · exact ⟨[], c :: rest, rfl, h⟩
        · rcases (ih _).mp h with ⟨a, b, hab, hf⟩
          exact ⟨c :: a, b, by simp [hab], hf⟩
      · rintro ⟨a, b, hab, hf⟩
        simp only [splits, List.any_cons, List.any_map, Bool.or_eq_true]
        cases a with
        | nil =>
            left
            simp only [List.nil_append] at hab
            rw [← hab] at hf
            exact hf
        | cons x xs =>
            right
            simp only [List.cons_append, List.cons.injEq] at hab
            refine (ih (fun p => f (c :: p.1, p.2))).mpr ⟨xs, b, hab.2, ?_⟩
            simpa [← hab.1] using hf

theorem consumeWord_eq_some (w : List Char) :
    ∀ l r, (consumeWord w l = some r ↔ l = w ++ r) := by
  induction w with
  | nil =>
      intro l r
      simp [consumeWord, eq_comm]
  | cons a as ih =>
      intro l r
      cases l with
      | nil => simp [consumeWord]
      | cons c cs =>
          by_cases hac : a = c
          · subst hac
            simp [consumeWord, ih]
          · constructor
            · intro h
              have hnone : consumeWord (a :: as) (c :: cs) = none := by
                simp [consumeWord, hac]
              rw [hnone] at h
              cases h
            · intro h
              rw [List.cons_append] at h
              injection h with h1 h2
              exact absurd h1.symm hac

theorem takeWhile_mem_spaces (l : List Char) :
    ∀ c ∈ l.takeWhile isJsSpace, isJsSpace c = true := by
  induction l with
  | nil => simp
  | cons a t ih =>
      by_cases ha : isJsSpace a
      · simp only [List.takeWhile_cons, ha, if_true]
        intro c hc
        rcases List.mem_cons.mp hc with rfl | hc
        · exact ha
        · exact ih c hc
      · simp [List.takeWhile_cons, ha]

theorem skipSpaces_append (sp rest : List Char)
    (hsp : ∀ c ∈ sp, isJsSpace c = true)
    (hrest : ∀ c, rest.head? = some c → isJsSpace c = false) :
    skipSpaces (sp ++ rest) = rest := by
  induction sp with
  | nil =>
      cases rest with
      | nil => rfl
      | cons c cs =>
          simp only [List.nil_append, skipSpaces, List.dropWhile_cons,
            hrest c rfl]
          simp
  | cons s ss ih =>
      simp only [List.cons_append, skipSpaces, List.dropWhile_cons,
        hsp s (by simp), if_true]
      exact ih fun c hc => hsp c (by simp [hc])

theorem specIsSeq_single (w seg : List Char) :
    specIsSeq [w] seg = true ↔ seg = w := by
  simp [specIsSeq, specIsSeqF]

theorem specIsSeq_cons_eq (w w' : List Char) (ws : List (List Char))
    (seg : List Char) :
    specIsSeq (w :: w' :: ws) seg =
      (splits seg).any fun ab =>
        decide (ab.1 = w) &&
          (splits ab.2).any fun sr =>
            (!sr.1.isEmpty && sr.1.all isJsSpace) &&
              specIsSeq (w' :: ws) sr.2 := rfl

theorem specIsSeq_cons_iff (w w' : List Char) (ws : List (List Char))
    (seg : List Char) :
    specIsSeq (w :: w' :: ws) seg = true ↔
      ∃ sp rest, seg = w ++ (sp ++ rest) ∧ sp ≠ [] ∧
        (∀ c ∈ sp, isJsSpace c = true) ∧ specIsSeq (w' :: ws) rest = true := by
  rw [specIsSeq_cons_eq, splits_any]
  constructor
  · rintro ⟨a, b, hab, hf⟩
    simp only [Bool.and_eq_true, decide_eq_true_eq] at hf
    obtain ⟨ha, hb⟩ := hf
    subst ha
    rcases (splits_any b _).mp hb with ⟨sp, rest, hbr, hg⟩
    simp only [Bool.and_eq_true, Bool.not_eq_true', List.isEmpty_eq_false,
      List.all_eq_true] at hg
    exact ⟨sp, rest, by rw [hab, hbr], hg.1.1, hg.1.2, hg.2⟩
  · rintro ⟨sp, rest, hseg, hsp, hall, hrest⟩
    refine ⟨w, sp ++ rest, hseg, ?_⟩
    simp only [Bool.and_eq_true, decide_eq_true_eq]
    refine ⟨by simp, ?_⟩
    refine (splits_any (sp ++ rest) _).mpr ⟨sp, rest, rfl, ?_⟩
    simp only [Bool.and_eq_true, Bool.not_eq_true', List.isEmpty_eq_false,
      List.all_eq_true]
    exact ⟨⟨hsp, hall⟩, hrest⟩

theorem wordsOK_head (w : List Char) (ws : List (List Char))
    (h : wordsOK (w :: ws) = true) :
    w ≠ [] ∧ ∀ c ∈ w, isWordChar c = true ∧ isJsSpace c = false := by
  simp only [wordsOK, List.all_cons, Bool.and_eq_true, List.all_eq_true,
    Bool.not_eq_true', List.isEmpty_eq_false] at h
  exact ⟨h.2.1.1, fun c hc => (h.2.1.2 c hc)⟩

theorem wordsOK_tail (w w' : List Char) (ws : List (List Char))
    (h : wordsOK (w :: w' :: ws) = true) : wordsOK (w' :: ws) = true := by
  simp only [wordsOK, List.all_cons, Bool.and_eq_true] at h ⊢
  exact ⟨by simp, h.2.2⟩

theorem specIsSeq_head (w : List Char) (ws : List (List Char)) (seg : List Char)
    (h : specIsSeq (w :: ws) seg = true) : ∃ r, seg = w ++ r := by
  cases ws with
  | nil => exact ⟨[], by simpa using (specIsSeq_single w seg).mp h⟩
  | cons w' ws =>
      obtain ⟨sp, rest, hseg, _, _, _⟩ := (specIsSeq_cons_iff w w' ws seg).mp h
      exact ⟨sp ++ rest, hseg⟩

theorem specIsSeq_head_not_space (w : List Char) (ws : List (List Char))
    (seg : List Char) (hok : wordsOK (w :: ws) = true)
    (h : specIsSeq (w :: ws) seg = true) :
    ∀ c, seg.head? = some c → isJsSpace c = false := by
  obtain ⟨r, hr⟩ := specIsSeq_head w ws seg h
  obtain ⟨hne, hchars⟩ := wordsOK_head w ws hok
  cases w with
  | nil => exact absurd rfl hne
  | cons a w2 =>
      intro c hc
      rw [hr] at hc
      simp only [List.cons_append, List.head?_cons, Option.some.injEq] at hc
      rw [← hc]
      exact (hchars a (by simp)).2

theorem matchWords_nil_input (w : List Char) (ws : List (List Char))
    (hok : wordsOK (w :: ws) = true) : matchWords (w :: ws) [] = false := by
  obtain ⟨hne, _⟩ := wordsOK_head w ws hok
  cases w with
  | nil => exact absurd rfl hne
  | cons a w2 =>
      cases ws with
      | nil => simp [matchWords, consumeWord]
      | cons w' ws => simp [matchWords, consumeWord]

theorem matchWords_iff (ws' : List (List Char)) :
    ∀ (w : List Char) (l : List Char), wordsOK (w :: ws') = true →
      (matchWords (w :: ws') l = true ↔
        ∃ seg post, l = seg ++ post ∧ specIsSeq (w :: ws') seg = true ∧
          wordBoundaryAfter post = true) := by
  induction ws' with
  | nil =>
      intro w l _
      constructor
      · intro h
        cases hc : consumeWord w l with
        | none => simp [matchWords, hc] at h
        | some l2 =>
            simp only [matchWords, hc] at h
            exact ⟨w, l2, (consumeWord_eq_some w l l2).mp hc,
              (specIsSeq_single w w).mpr rfl, h⟩
      · rintro ⟨seg, post, hl, hseg, hpost⟩
        have hsw : seg = w := (specIsSeq_single w seg).mp hseg
        subst hsw
        have hc : consumeWord seg l = some post :=
          (consumeWord_eq_some seg l post).mpr hl
        simp [matchWords, hc, hpost]
  | cons w' ws ih =>
      intro w l hok
      have hokT : wordsOK (w' :: ws) = true := wordsOK_tail w w' ws hok
      constructor
      · intro h
        cases hc : consumeWord w l with
        | none => simp [matchWords, hc] at h
        | some l2 =>
            cases l2 with
            | nil => simp [matchWords, hc] at h
            | cons c l3 =>
                simp only [matchWords, hc, Bool.and_eq_true] at h
                obtain ⟨hcsp, hmw⟩ := h
                obtain ⟨seg', post, hsplit, hseg', hpost⟩ :=
                  (ih w' (skipSpaces l3) hokT).mp hmw
                have hl : l = w ++ (c :: l3) := (consumeWord_eq_some w l _).mp hc
                have hl3 : l3.takeWhile isJsSpace ++ skipSpaces l3 = l3 :=
                  List.takeWhile_append_dropWhile isJsSpace l3
                refine ⟨w ++ ((c :: l3.takeWhile isJsSpace) ++ seg'), post, ?_, ?_, hpost⟩
                · rw [hl]
                  have hdec : l3 = l3.takeWhile isJsSpace ++ (seg' ++ post) := by
                    rw [← hsplit, hl3]
                  conv_lhs => rw [hdec]
                  simp
                · rw [specIsSeq_cons_iff]
                  refine ⟨c :: l3.takeWhile isJsSpace, seg', by simp, by simp, ?_, hseg'⟩
                  intro x hx
                  rcases List.mem_cons.mp hx with rfl | hx
                  · exact hcsp
                  · exact takeWhile_mem_spaces l3 x hx
      · rintro ⟨seg, post, hl, hseg, hpost⟩
        obtain ⟨sp, rest, hseg_eq, hsp_ne, hsp_all, hrest⟩ :=
          (specIsSeq_cons_iff w w' ws seg).mp hseg
        cases sp with
        | nil => exact absurd rfl hsp_ne
        | cons c sp' =>
            have hc : consumeWord w l = some ((c :: sp') ++ (rest ++ post)) := by
              refine (consumeWord_eq_some w l _).mpr ?_
              rw [hl, hseg_eq]
              simp
            have hskip : skipSpaces (sp' ++ (rest ++ post)) = rest ++ post := by
              refine skipSpaces_append sp' (rest ++ post)
                (fun x hx => hsp_all x (by simp [hx])) ?_
              intro x hx
              obtain ⟨r0, hr0⟩ := specIsSeq_head w' ws rest hrest
              obtain ⟨hne', _⟩ := wordsOK_head w' ws hokT
              cases hr0c : w' with
              | nil => exact absurd hr0c hne'
              | cons a w2 =>
                  rw [hr0, hr0c] at hx
                  simp only [List.cons_append, List.head?_cons,
                    Option.some.injEq] at hx
                  rw [← hx]
                  exact ((wordsOK_head w' ws hokT).2 a (by rw [hr0c]; simp)).2
            have hmw : matchWords (w' :: ws) (skipSpaces (sp' ++ (rest ++ post))) = true := by
              rw [hskip]
              exact (ih w' (rest ++ post) hokT).mpr ⟨rest, post, rfl, hrest, hpost⟩
            simp [matchWords, hc, hsp_all c (by simp), hmw]

theorem endsWord_eq (pre : List Char) :
    ∀ prev, endsWord prev pre =
      (match pre.getLast? with
       | none => prev
       | some c => isWordChar c) := by
  induction pre with
  | nil => intro prev; rfl
  | cons c rest ih =>
      intro prev
      cases rest with
      | nil => rfl
      | cons d t =>
          rw [show endsWord prev (c :: d :: t) = endsWord (isWordChar c) (d :: t)
            from rfl, ih]
          rw [List.getLast?_cons_cons]
          cases hg : (d :: t).getLast? with
          | none =>
              rw [List.getLast?_eq_none_iff] at hg
              cases hg
          | some e => rfl

theorem specNoWordEnd_iff (pre : List Char) :
    specNoWordEnd pre = true ↔ endsWord false pre = false := by
  rw [endsWord_eq]
  cases hg : pre.getLast? with
  | none => simp [specNoWordEnd, hg]
  | some c => simp [specNoWordEnd, hg, Bool.not_eq_true']

theorem specNoWordHead_eq (l : List Char) :
    specNoWordHead l = wordBoundaryAfter l := by
  cases l <;> rfl

theorem scanPattern_iff (w0 : List Char) (ws : List (List Char))
    (hok : wordsOK (w0 :: ws) = true) :
    ∀ (s : List Char) (prev : Bool),
      (scanPattern (w0 :: ws) prev s = true ↔
        ∃ pre suf, s = pre ++ suf ∧ endsWord prev pre = false ∧
          matchWords (w0 :: ws) suf = true) := by
  intro s
  induction s with
  | nil =>
      intro prev
      simp only [scanPattern]
      constructor
      · intro h; cases h
      · rintro ⟨pre, suf, hps, hpre, hmw⟩
        have hpre_nil : pre = [] := by
          cases pre with
          | nil => rfl
          | cons x xs => simp at hps
        subst hpre_nil
        simp only [List.nil_append] at hps
        rw [← hps, matchWords_nil_input w0 ws hok] at hmw
        cases hmw
  | cons c rest ih =>
      intro prev
      simp only [scanPattern, Bool.or_eq_true, Bool.and_eq_true,
        Bool.not_eq_true']
      constructor
      · rintro (⟨hprev, hmw⟩ | h)
        · exact ⟨[], c :: rest, rfl, hprev, hmw⟩
        · obtain ⟨pre, suf, hps, hpre, hmw⟩ := (ih (isWordChar c)).mp h
          exact ⟨c :: pre, suf, by simp [hps],
            by simpa [endsWord] using hpre, hmw⟩
      · rintro ⟨pre, suf, hps, hpre, hmw⟩
        cases pre with
        | nil =>
            left
            simp only [List.nil_append] at hps
            rw [← hps] at hmw
            exact ⟨hpre, hmw⟩
        | cons x xs =>
            right
            rw [List.cons_append] at hps
            injection hps with h1 h2
            subst h1
            refine (ih (isWordChar c)).mpr ⟨xs, suf, h2, ?_, hmw⟩
            simpa [endsWord] using hpre

/-- Correspondence between the source's scan-based regex matcher and the
declarative whole-word occurrence predicate, for any well-formed signature. -/
theorem testPattern_iff (w0 : List Char) (ws : List (List Char))
    (hok : wordsOK (w0 :: ws) = true) (s : List Char) :
    testPattern (w0 :: ws) s = true ↔ specOccurs (w0 :: ws) s = true := by
  constructor
  · intro h
    obtain ⟨pre, suf, hps, hpre, hmw⟩ :=
      (scanPattern_iff w0 ws hok s false).mp h
    obtain ⟨seg, post, hsp, hseg, hpost⟩ :=
      (matchWords_iff ws w0 suf hok).mp hmw
    refine (splits_any s _).mpr ⟨pre, suf, hps, ?_⟩
    simp only [Bool.and_eq_true]
    refine ⟨(specNoWordEnd_iff pre).mpr hpre, ?_⟩
    refine (splits_any suf _).mpr ⟨seg, post, hsp, ?_⟩
    simp only [Bool.and_eq_true]
    exact ⟨hseg, by rw [specNoWordHead_eq]; exact hpost⟩
  · intro h
    obtain ⟨pre, suf, hps, hf⟩ := (splits_any s _).mp h
    simp only [Bool.and_eq_true] at hf
    obtain ⟨hpre, hinner⟩ := hf
    obtain ⟨seg, post, hsp, hg⟩ := (splits_any suf _).mp hinner
    simp only [Bool.and_eq_true] at hg
    obtain ⟨hseg, hpost⟩ := hg
    refine (scanPattern_iff w0 ws hok s false).mpr
      ⟨pre, suf, hps, (specNoWordEnd_iff pre).mp hpre, ?_⟩
    refine (matchWords_iff ws w0 suf hok).mpr ⟨seg, post, hsp, hseg, ?_⟩
    rw [← specNoWordHead_eq]
    exact hpost

theorem dmlPatterns_wordsOK : ∀ p ∈ dmlPatterns, wordsOK p.words = true := by
  decide

theorem testPattern_iff_ok (ws : List (List Char)) (hok : wordsOK ws = true)
    (s : List Char) : testPattern ws s = true ↔ specOccurs ws s = true := by
  cases ws with
  | nil => simp [wordsOK] at hok
  | cons w0 ws => exact testPattern_iff w0 ws hok s

/-- Claim C3 (original wording, counterexample): the query `UPDATE/**/x`
contains, outside of any comment, a whole-word occurrence of the UPDATE
construct (the block comment itself delimits the word), yet classification
returns `isMutating = false`: removing the block comment glues `UPDATE` to
`x`, producing `UPDATEx`, in which the word-boundary-anchored signature no
longer matches. -/
theorem claim_C3_counterexample :
    (∃ p ∈ dmlPatterns,
        specOccursOutsideComments p.words (("UPDATE/**/x").toList) = true) ∧
      (containsDMLStatements (("UPDATE/**/x").toList)).isDML = false := by
  refine ⟨⟨⟨[("UPDATE".toList)], "UPDATE"⟩, by decide, by decide⟩, by decide⟩

/-- Claim C3 (amended): for every query whose normalized form (single-line
comments stripped first, then non-nested block comments, trimmed, uppercased)
contains a whole-word occurrence of one of the listed mutating constructs,
classification returns `isMutating = true`, with a label naming a construct
that occurs as a whole word in that normalized form (the first matching one
in catalog order). -/
theorem claim_C3_amended (q : List Char)
    (h : ∃ p ∈ dmlPatterns, specOccurs p.words (normalizeQuery q) = true) :
    (containsDMLStatements q).isDML = true ∧
      ∃ p ∈ dmlPatterns, specOccurs p.words (normalizeQuery q) = true ∧
        (containsDMLStatements q).message = some (dmlMessage p.name) := by
  obtain ⟨p, hp, hocc⟩ := h
  have htest : testPattern p.words (normalizeQuery q) = true :=
    (testPattern_iff_ok p.words (dmlPatterns_wordsOK p hp) (normalizeQuery q)).mpr hocc
  have hsome :
      (dmlPatterns.find? fun p' => testPattern p'.words (normalizeQuery q)).isSome := by
    rw [List.find?_isSome]
    exact ⟨p, hp, htest⟩
  cases hfind : dmlPatterns.find? (fun p' => testPattern p'.words (normalizeQuery q)) with
  | none => rw [hfind] at hsome; cases hsome
  | some p0 =>
      have hp0mem := List.mem_of_find?_eq_some hfind
      have hp0test := List.find?_some hfind
      have hocc0 : specOccurs p0.words (normalizeQuery q) = true :=
        (testPattern_iff_ok p0.words (dmlPatterns_wordsOK p0 hp0mem) _).mp hp0test
      constructor
      · simp [containsDMLStatements, hfind]
      · exact ⟨p0, hp0mem, hocc0, by simp [containsDMLStatements, hfind]⟩

theorem claim_C3_amended_witness :
    (containsDMLStatements (("UPDATE t SET x = 1").toList)).isDML = true :=
  (claim_C3_amended (("UPDATE t SET x = 1").toList)
    ⟨⟨[("UPDATE".toList)], "UPDATE"⟩, by decide, by decide⟩).1

/-- Claim C4 (original wording, counterexample): in the query `/*GRANT--*/`
the only occurrence of a mutating construct (GRANT) lies wholly inside a
block comment, yet classification returns `isMutating = true` with the GRANT
label: single-line comment removal runs first and deletes the `--*/` tail,
leaving the unterminated `/*GRANT`, whose block comment is then not removed. -/
theorem claim_C4_counterexample :
    List.IsInfix (("GRANT".toList)) (("/*GRANT--*/").toList) ∧
      (∀ p ∈ dmlPatterns,
        specOccursPartlyOutsideComments p.words (("/*GRANT--*/").toList) = false) ∧
      containsDMLStatements (("/*GRANT--*/").toList) =
        ⟨true, some (dmlMessage ("GRANT"))⟩ := by
  exact ⟨⟨("/*".toList), ("--*/".toList), by decide⟩, by decide, by decide⟩

/-- Claim C4 (amended): for every query whose normalized form (single-line
comments stripped first, then non-nested block comments, trimmed, uppercased)
contains no whole-word occurrence of any listed mutating construct — in
particular any query whose mutating constructs appear only inside comments
that this stripping removes intact — classification returns
`isMutating = false` with no label. -/
theorem claim_C4_amended (q : List Char)
    (h : ∀ p ∈ dmlPatterns, specOccurs p.words (normalizeQuery q) = false) :
    containsDMLStatements q = ⟨false, none⟩ := by
  have hfind : dmlPatterns.find? (fun p' => testPattern p'.words (normalizeQuery q)) = none := by
    rw [List.find?_eq_none]
    intro p hp hcontra
    have : specOccurs p.words (normalizeQuery q) = true :=
      (testPattern_iff_ok p.words (dmlPatterns_wordsOK p hp) _).mp hcontra
    rw [h p hp] at this
    cases this
  simp [containsDMLStatements, hfind]

theorem claim_C4_amended_witness :
    containsDMLStatements (("-- DROP TABLE t\nSELECT 1 /* UPDATE x */").toList) =
      ⟨false, none⟩ :=
  claim_C4_amended (("-- DROP TABLE t\nSELECT 1 /* UPDATE x */").toList)
    (by decide)

/-- Claim C6 (original wording, counterexample): in the query
`SELECT xUPDATEy, UPD/**/ATE` the keyword UPDATE occurs (case-insensitively)
only inside the longer identifier `xUPDATEy` — it has no whole-word
occurrence anywhere in the query — yet classification reports UPDATE:
removing the block comment glues `UPD` and `ATE` into a fresh whole-word
`UPDATE` in the normalized text. -/
theorem claim_C6_counterexample :
    specOccurs [("UPDATE".toList)]
        ((("SELECT xUPDATEy, UPD/**/ATE").toList).map Char.toUpper) = false ∧
      List.IsInfix (("UPDATE".toList))
        ((("SELECT xUPDATEy, UPD/**/ATE").toList).map Char.toUpper) ∧
      containsDMLStatements (("SELECT xUPDATEy, UPD/**/ATE").toList) =
        ⟨true, some (dmlMessage ("UPDATE"))⟩ := by
  refine ⟨by decide, ⟨("SELECT X".toList), ("Y, UPD/**/ATE".toList), by decide⟩,
    by decide⟩

/-- Claim C6 (amended): classification reports a construct only when that
construct occurs as a whole word in the normalized (comment-stripped,
trimmed, uppercased) query; since the signatures are word-boundary anchored,
a keyword occurring only inside a longer identifier of the normalized text
never triggers (e.g. `updated_at` and `insert_id` do not). -/
theorem claim_C6_amended (q : List Char)
    (h : (containsDMLStatements q).isDML = true) :
    ∃ p ∈ dmlPatterns,
      (containsDMLStatements q).message = some (dmlMessage p.name) ∧
        specOccurs p.words (normalizeQuery q) = true := by
  cases hfind : dmlPatterns.find? (fun p' => testPattern p'.words (normalizeQuery q)) with
  | none => simp [containsDMLStatements, hfind] at h
  | some p0 =>
      have hp0mem := List.mem_of_find?_eq_some hfind
      have hp0test := List.find?_some hfind
      exact ⟨p0, hp0mem, by simp [containsDMLStatements, hfind],
        (testPattern_iff_ok p0.words (dmlPatterns_wordsOK p0 hp0mem) _).mp hp0test⟩

theorem claim_C6_amended_witness :
    ((containsDMLStatements (("SELECT updated_at, insert_id FROM t").toList)).isDML
        = false) ∧
      ∃ p ∈ dmlPatterns,
        (containsDMLStatements (("DELETE FROM t WHERE x = 1").toList)).message =
            some (dmlMessage p.name) ∧
          specOccurs p.words
            (normalizeQuery (("DELETE FROM t WHERE x = 1").toList)) = true :=
  ⟨by decide, claim_C6_amended (("DELETE FROM t WHERE x = 1").toList) (by decide)⟩

/-- Claim C5 (original wording, counterexample): the query
`ALTER VIEW ds.v SET OPTIONS (a = 1)` is an alter-view statement (the
normalized text contains the whole-word sequence `ALTER VIEW`), yet
classification returns `isMutating = false`: the catalog anchors ALTER to
TABLE only.  Likewise the create-or-replace variant of a function is not
recognized. -/
theorem claim_C5_counterexample :
    specOccurs [("ALTER".toList), ("VIEW".toList)]
        (normalizeQuery (("ALTER VIEW ds.v SET OPTIONS (a = 1)").toList)) = true ∧
      (containsDMLStatements
        (("ALTER VIEW ds.v SET OPTIONS (a = 1)").toList)).isDML = false ∧
      (containsDMLStatements
        (("CREATE OR REPLACE FUNCTION ds.f() AS (1)").toList)).isDML = false := by
  exact ⟨by decide, by decide, by decide⟩

/-- Claim C5 (amended): the catalog recognizes exactly these 21 signatures:
CREATE TABLE, CREATE OR REPLACE TABLE, DROP TABLE, ALTER TABLE, INSERT INTO,
UPDATE, DELETE FROM, MERGE INTO, TRUNCATE TABLE, CREATE VIEW, CREATE OR
REPLACE VIEW, DROP VIEW, CREATE FUNCTION, DROP FUNCTION, CREATE PROCEDURE,
DROP PROCEDURE, GRANT, REVOKE, BEGIN TRANSACTION, COMMIT, ROLLBACK.
Representative statements of each recognized form classify as mutating with
the corresponding label; alter of views, functions and procedures and
create-or-replace of functions and procedures are not recognized. -/
theorem claim_C5_amended :
    containsDMLStatements (("CREATE TABLE ds.t (x INT64)").toList) =
        ⟨true, some (dmlMessage ("CREATE TABLE"))⟩ ∧
      containsDMLStatements (("CREATE OR REPLACE TABLE ds.t (x INT64)").toList) =
        ⟨true, some (dmlMessage ("CREATE OR REPLACE TABLE"))⟩ ∧
      containsDMLStatements (("DROP TABLE ds.t").toList) =
        ⟨true, some (dmlMessage ("DROP TABLE"))⟩ ∧
      containsDMLStatements (("ALTER TABLE ds.t ADD COLUMN y STRING").toList) =
        ⟨true, some (dmlMessage ("ALTER TABLE"))⟩ ∧
      containsDMLStatements (("INSERT INTO ds.t VALUES (1)").toList) =
        ⟨true, some (dmlMessage ("INSERT INTO"))⟩ ∧
      containsDMLStatements (("UPDATE ds.t SET x = 1 WHERE true").toList) =
        ⟨true, some (dmlMessage ("UPDATE"))⟩ ∧
      containsDMLStatements (("DELETE FROM ds.t WHERE true").toList) =
        ⟨true, some (dmlMessage ("DELETE FROM"))⟩ ∧
      containsDMLStatements
          (("MERGE INTO ds.t USING ds.s ON false WHEN MATCHED THEN DELETE").toList) =
        ⟨true, some (dmlMessage ("MERGE INTO"))⟩ ∧
      containsDMLStatements (("TRUNCATE TABLE ds.t").toList) =
        ⟨true, some (dmlMessage ("TRUNCATE TABLE"))⟩ ∧
      containsDMLStatements (("CREATE VIEW ds.v AS SELECT 1").toList) =
        ⟨true, some (dmlMessage ("CREATE VIEW"))⟩ ∧
      containsDMLStatements (("CREATE OR REPLACE VIEW ds.v AS SELECT 1").toList) =
        ⟨true, some (dmlMessage ("CREATE OR REPLACE VIEW"))⟩ ∧
      containsDMLStatements (("DROP VIEW ds.v").toList) =
        ⟨true, some (dmlMessage ("DROP VIEW"))⟩ ∧
      containsDMLStatements (("CREATE FUNCTION ds.f() AS (1)").toList) =
        ⟨true, some (dmlMessage ("CREATE FUNCTION"))⟩ ∧
      containsDMLStatements (("DROP FUNCTION ds.f").toList) =
        ⟨true, some (dmlMessage ("DROP FUNCTION"))⟩ ∧
      containsDMLStatements (("CREATE PROCEDURE ds.p() BEGIN END").toList) =
        ⟨true, some (dmlMessage ("CREATE PROCEDURE"))⟩ ∧
      containsDMLStatements (("DROP PROCEDURE ds.p").toList) =
        ⟨true, some (dmlMessage ("DROP PROCEDURE"))⟩ ∧
      containsDMLStatements (("GRANT SELECT ON ds.t TO user").toList) =
        ⟨true, some (dmlMessage ("GRANT"))⟩ ∧
      containsDMLStatements (("REVOKE SELECT ON ds.t FROM user").toList) =
        ⟨true, some (dmlMessage ("REVOKE"))⟩ ∧
      containsDMLStatements (("BEGIN TRANSACTION").toList) =
        ⟨true, some (dmlMessage ("BEGIN TRANSACTION"))⟩ ∧
      containsDMLStatements (("COMMIT").toList) =
        ⟨true, some (dmlMessage ("COMMIT"))⟩ ∧
      containsDMLStatements (("ROLLBACK").toList) =
        ⟨true, some (dmlMessage ("ROLLBACK"))⟩ ∧
      (containsDMLStatements (("ALTER VIEW ds.v SET OPTIONS (a = 1)").toList)).isDML
        = false ∧
      (containsDMLStatements (("ALTER FUNCTION ds.f SET OPTIONS (a = 1)").toList)).isDML
        = false ∧
      (containsDMLStatements (("ALTER PROCEDURE ds.p SET OPTIONS (a = 1)").toList)).isDML
        = false ∧
      (containsDMLStatements
        (("CREATE OR REPLACE FUNCTION ds.f() AS (1)").toList)).isDML = false ∧
      (containsDMLStatements
        (("CREATE OR REPLACE PROCEDURE ds.p() BEGIN END").toList)).isDML = false := by
  decide

/-- Claim C1: for every request to `run_query_with_validation`, if the
classifier reports the query as mutating then no external call at all is
made (neither dry run nor execution), and whenever the dry-run facility
reports a byte count at or above the 1,099,511,627,776-byte threshold the
execution facility is never invoked. -/
theorem claim_C1 {Row : Type} (env : BigQueryEnv Row) (q : String) (mr : Nat) :
    ((containsDMLStatements q.toList).isDML = true →
        (runQueryWithValidationHandler env q mr).2 = []) ∧
      ∀ n, env.dryRun = Except.ok n → 1099511627776 ≤ n →
        calledExecute (runQueryWithValidationHandler env q mr).2 = false := by
  constructor
  · intro hdml
    by_cases hq : q = ""
    · subst hq
      exact absurd hdml (by decide)
    · have hdml2 : (containsDMLStatements q.data).isDML = true := hdml
      simp [runQueryWithValidationHandler, hq, hdml, hdml2]
  · intro n hn hge
    by_cases hq : q = ""
    · subst hq
      simp [runQueryWithValidationHandler, calledExecute]
    · cases hdml : (containsDMLStatements q.toList).isDML with
      | true =>
          have hdml2 : (containsDMLStatements q.data).isDML = true := hdml
          simp [runQueryWithValidationHandler, hq, hdml, hdml2, calledExecute]
      | false =>
          have hdml2 : (containsDMLStatements q.data).isDML = false := hdml
          have hge2 : SIZE_LIMIT_BYTES ≤ n := hge
          have hd : decide (n < SIZE_LIMIT_BYTES) = false :=
            decide_eq_false (Nat.not_lt.mpr hge)
          simp [runQueryWithValidationHandler, hq, hdml, hdml2, hn, hd, hge2,
            calledExecute, isExecuteCall]

theorem claim_C1_witness :
    (runQueryWithValidationHandler
        ⟨Except.ok 7, Except.ok ([] : List Unit)⟩ ("DROP TABLE t") 100).2 = [] ∧
      calledExecute (runQueryWithValidationHandler
        ⟨Except.ok 2199023255552, Except.ok ([] : List Unit)⟩
        ("SELECT 1") 100).2 = false :=
  ⟨(claim_C1 ⟨Except.ok 7, Except.ok []⟩ ("DROP TABLE t") 100).1 (by decide),
   (claim_C1 ⟨Except.ok 2199023255552, Except.ok []⟩ ("SELECT 1") 100).2
     2199023255552 rfl (by decide)⟩

/-- Claim C2: for every byte count `n` reported by the dry-run facility,
both operations derive the within-limit flag as the exact integer comparison
`n < 1099511627776` (the source compares `BigInt` values, modelled as exact
naturals, so the comparison stays exact beyond 2^53): `dry_run_query`
reports `isBelowLimit = decide (n < 1099511627776)`, and
`run_query_with_validation` executes exactly below the threshold and
returns the oversized rejection (without executing) at or above it — in
particular at exactly 1,099,511,627,776 bytes. -/
theorem claim_C2 (n : Nat) (q : String) (hq : q ≠ "")
    (hdml : (containsDMLStatements q.toList).isDML = false)
    (rows : Except String (List Unit)) (mr : Nat) :
    ((@dryRunQueryHandler Unit (Except.ok n) q).1 =
        HandlerOutcome.reply (Payload.dryRunSuccess n (decide (n < 1099511627776)))) ∧
      (n < 1099511627776 →
        calledExecute (runQueryWithValidationHandler ⟨Except.ok n, rows⟩ q mr).2
          = true) ∧
      (1099511627776 ≤ n →
        (runQueryWithValidationHandler ⟨Except.ok n, rows⟩ q mr).1 =
            HandlerOutcome.reply (Payload.oversized n) ∧
          calledExecute (runQueryWithValidationHandler ⟨Except.ok n, rows⟩ q mr).2
            = false) := by
  have hdml2 : (containsDMLStatements q.data).isDML = false := hdml
  refine ⟨?_, ?_, ?_⟩
  · simp [dryRunQueryHandler, hq, SIZE_LIMIT_BYTES]
  · intro hlt
    have hd : decide (n < SIZE_LIMIT_BYTES) = true := decide_eq_true hlt
    have hnle : ¬ (SIZE_LIMIT_BYTES ≤ n) := Nat.not_le.mpr hlt
    cases rows with
    | ok rs =>
        simp [runQueryWithValidationHandler, hq, hdml, hdml2, hd, hnle,
          calledExecute, isExecuteCall]
    | error e =>
        simp [runQueryWithValidationHandler, hq, hdml, hdml2, hd, hnle,
          calledExecute, isExecuteCall]
  · intro hge
    have hd : decide (n < SIZE_LIMIT_BYTES) = false :=
      decide_eq_false (Nat.not_lt.mpr hge)
    have hge2 : SIZE_LIMIT_BYTES ≤ n := hge
    constructor
    · simp [runQueryWithValidationHandler, hq, hdml, hdml2, hd, hge2]
    · simp [runQueryWithValidationHandler, hq, hdml, hdml2, hd, hge2,
        calledExecute, isExecuteCall]

theorem claim_C2_witness :
    ((@dryRunQueryHandler Unit (Except.ok 1099511627776) ("SELECT 1")).1 =
        HandlerOutcome.reply (Payload.dryRunSuccess 1099511627776
          (decide (1099511627776 < 1099511627776)))) ∧
      ((runQueryWithValidationHandler
          ⟨Except.ok 9007199254740993, Except.ok ([] : List Unit)⟩
          ("SELECT 1") 100).1 =
        HandlerOutcome.reply (Payload.oversized 9007199254740993)) :=
  ⟨(claim_C2 1099511627776 ("SELECT 1") (by decide) (by decide)
      (Except.ok []) 100).1,
   ((claim_C2 9007199254740993 ("SELECT 1") (by decide) (by decide)
      (Except.ok []) 100).2.2 (by decide)).1⟩

/-- Claim C7: the `dry_run_query` operation never performs statement
classification: for every nonempty query string — mutating statements
included — it proceeds directly to the dry-run facility, and when the dry
run succeeds it returns a success report (with the exact byte count and the
within-limit flag) rather than a mutating-statement rejection. -/
theorem claim_C7 (q : String) (hq : q ≠ "") (n : Nat) :
    @dryRunQueryHandler Unit (Except.ok n) q =
      (HandlerOutcome.reply
        (Payload.dryRunSuccess n (decide (n < 1099511627776))),
       [ExtCall.dryRun]) := by
  simp [dryRunQueryHandler, hq, SIZE_LIMIT_BYTES]

theorem claim_C7_witness :
    (containsDMLStatements (("INSERT INTO t VALUES (1)").toList)).isDML = true ∧
      @dryRunQueryHandler Unit (Except.ok 42) ("INSERT INTO t VALUES (1)") =
        (HandlerOutcome.reply
          (Payload.dryRunSuccess 42 (decide (42 < 1099511627776))),
         [ExtCall.dryRun]) :=
  ⟨by decide, claim_C7 ("INSERT INTO t VALUES (1)") (by decide) 42⟩

/-- Claim C8: an empty query string makes either operation throw the
invalid-parameters `McpError` (a transport-level fault, not a
`{success:false}` payload) with no external call, whatever the external
facilities would have returned. -/
theorem claim_C8 {Row : Type} (dryRun : Except String Nat)
    (env : BigQueryEnv Row) (mr : Nat) :
    @dryRunQueryHandler Row dryRun ("") =
        (HandlerOutcome.thrown McpErrorCode.invalidParams "Query is required",
         []) ∧
      runQueryWithValidationHandler env ("") mr =
        (HandlerOutcome.thrown McpErrorCode.invalidParams "Query is required",
         []) :=
  ⟨rfl, rfl⟩

/-- Claim C9: every failure of the dry-run or execution facility is caught
and returned as a `{success:false, error}` payload whose error field is
exactly the failure's message, never re-thrown and never retried: each
facility appears at most once in the call trace. -/
theorem claim_C9 {Row : Type} (q : String) (hq : q ≠ "") (e : String) (n : Nat)
    (hn : n < 1099511627776)
    (hdml : (containsDMLStatements q.toList).isDML = false)
    (rows : Except String (List Row)) (mr : Nat) :
    @dryRunQueryHandler Row (Except.error e) q =
        (HandlerOutcome.reply (Payload.failure e), [ExtCall.dryRun]) ∧
      runQueryWithValidationHandler ⟨Except.error e, rows⟩ q mr =
        (HandlerOutcome.reply (Payload.failure e), [ExtCall.dryRun]) ∧
      runQueryWithValidationHandler
          (⟨Except.ok n, Except.error e⟩ : BigQueryEnv Row) q mr =
        (HandlerOutcome.reply (Payload.failure e),
         [ExtCall.dryRun, ExtCall.execute mr]) := by
  have hdml2 : (containsDMLStatements q.data).isDML = false := hdml
  have hnle : ¬ (SIZE_LIMIT_BYTES ≤ n) := Nat.not_le.mpr hn
  refine ⟨?_, ?_, ?_⟩
  · simp [dryRunQueryHandler, hq]
  · simp [runQueryWithValidationHandler, hq, hdml, hdml2]
  · simp [runQueryWithValidationHandler, hq, hdml, hdml2, decide_eq_true hn,
      hnle, SIZE_LIMIT_BYTES]

theorem claim_C9_witness :
    @dryRunQueryHandler Unit (Except.error ("Invalid query syntax"))
        ("SELECT * FROM t") =
        (HandlerOutcome.reply (Payload.failure ("Invalid query syntax")),
         [ExtCall.dryRun]) ∧
      runQueryWithValidationHandler
          ⟨Except.error ("Invalid query syntax"), Except.ok ([] : List Unit)⟩
          ("SELECT * FROM t") 100 =
        (HandlerOutcome.reply (Payload.failure ("Invalid query syntax")),
         [ExtCall.dryRun]) ∧
      runQueryWithValidationHandler
          (⟨Except.ok 7, Except.error ("Invalid query syntax")⟩ :
            BigQueryEnv Unit)
          ("SELECT * FROM t") 100 =
        (HandlerOutcome.reply (Payload.failure ("Invalid query syntax")),
         [ExtCall.dryRun, ExtCall.execute 100]) :=
  claim_C9 ("SELECT * FROM t") (by decide) ("Invalid query syntax") 7
    (by decide) (by decide) (Except.ok []) 100

/-- Claim C10: the classifier does not recognize string literals: the pure
read `SELECT "UPDATE me" AS note FROM t` carries UPDATE only inside a quoted
string literal (outside any comment, as witnessed by the whole-word
occurrence outside comments), yet classification reports UPDATE, and
`run_query_with_validation` therefore rejects the query with zero external
calls, whatever the facilities would have returned. -/
theorem claim_C10 :
    containsDMLStatements (("SELECT \"UPDATE me\" AS note FROM t").toList) =
        ⟨true, some (dmlMessage ("UPDATE"))⟩ ∧
      specOccursOutsideComments [("UPDATE".toList)]
          (("SELECT \"UPDATE me\" AS note FROM t").toList) = true ∧
      ∀ (env : BigQueryEnv Unit) (mr : Nat),
        runQueryWithValidationHandler env ("SELECT \"UPDATE me\" AS note FROM t") mr =
          (HandlerOutcome.reply (Payload.failure (dmlMessage ("UPDATE"))), []) := by
  exact ⟨by decide, by decide, fun env mr => rfl⟩
